import Mathlib

/-!
Verification of the mini-TCP transport core (wrapping sequence numbers,
byte stream, reassembler, receiver half, sender half) against its
natural-language specification.  Machine integers of the source are
modelled as `Nat` (with explicit `% 2 ^ 32` where the source masks) and,
where a Python value can be negative, as `Int`.  Fallible operations
(Python `raise`) return `Except String`.
-/

set_option maxHeartbeats 1000000
set_option maxRecDepth 8000

namespace MiniTcp

/-! ### Wrap32 (src/mini_tcp/wrapping_intergers.py)

A `Wrap32` value is its 32-bit `raw_value`; the constructor masks with
`& 0xFFFFFFFF`, modelled as `% 2 ^ 32`. -/

/-- The source `Wrap32.wrap`:
`wrapped_value = (zero_point.raw_value + (n & 0xFFFFFFFF)) & 0xFFFFFFFF`. -/
def wrap (n zeroPoint : ℕ) : ℕ :=
  (zeroPoint + n % 2 ^ 32) % 2 ^ 32

/-- The source `Wrap32.__add__`: `(self.raw_value + (n & 0xFFFFFFFF)) & 0xFFFFFFFF`. -/
def wrapAdd (raw n : ℕ) : ℕ :=
  (raw + n % 2 ^ 32) % 2 ^ 32

/-- First lines of the source `unwrap`: `n_minus_isn = raw - zero_point`
(a Python int, possibly negative, hence `ℤ`), then
`tmp = n_minus_isn + (1 << 32)` when negative, else `n_minus_isn`.
The result is non-negative, returned as `ℕ`. -/
def offsetMod (raw zeroPoint : ℕ) : ℕ :=
  (if (raw : ℤ) - (zeroPoint : ℤ) < 0 then (raw : ℤ) - (zeroPoint : ℤ) + 2 ^ 32
   else (raw : ℤ) - (zeroPoint : ℤ)).toNat

/-- The source loop `while tmp <= checkpoint: tmp += (1 << 32)`, written
with an explicit iteration budget so that it is structurally recursive
(and hence evaluates inside the kernel).  `bumpAbove` below supplies a
budget that provably never runs out, so the `fuel = 0` case is dead
code. -/
def bumpAboveAux : ℕ → ℕ → ℕ → ℕ
  | 0, _, tmp => tmp
  | fuel + 1, c, tmp => if tmp ≤ c then bumpAboveAux fuel c (tmp + 2 ^ 32) else tmp

/-- The source loop `while tmp <= checkpoint: tmp += (1 << 32)`.  The
loop adds `2 ^ 32 ≥ 1` per iteration, so `c + 1 - tmp` iterations always
suffice (see `bumpAbove_fuel_enough`). -/
def bumpAbove (c tmp : ℕ) : ℕ :=
  bumpAboveAux (c + 1 - tmp) c tmp

/-- The source `Wrap32.unwrap(zero_point, checkpoint)`; `raw` is
`self.raw_value`, `c` is the checkpoint.  All values at the program
points with `ℕ` subtraction are non-negative (established in the lemmas
below), so `ℕ` subtraction agrees with the Python int subtraction. -/
def unwrap (raw zeroPoint c : ℕ) : ℕ :=
  let tmp := offsetMod raw zeroPoint
  if c ≤ tmp then tmp
  else
    let tmp2 := tmp ||| ((c >>> 32) <<< 32)
    let tmp3 := bumpAbove c tmp2
    let tmp1 := tmp3 - 2 ^ 32
    if c - tmp1 < tmp3 - c then tmp1 else tmp3

/-! ### ByteStream (src/util/byte_stream.py)

The backing `RingBuffer` (src/util/ringbuffer.py) is a power-of-two
circular byte array with masked 64-bit in/out counters realising a FIFO
byte queue; we model the queue it realises as the list `buffer` of byte
values, so `len(self.buffer)` is `buffer.length`, `RingBuffer.push`
appends, and `pop`/`peek` read from the front, truncating the request to
the buffered length.  A request of negative length reaches
`bytearray(length)` inside the ring buffer and raises.  The source
initialises `self.error = {}` (an empty dict, used only for truthiness),
modelled as the flag `error := false`. -/

structure ByteStream where
  capacity : ℕ
  buffer : List ℕ
  closed : Bool
  error : Bool
  bytes_pushed : ℕ
  bytes_popped : ℕ
  deriving DecidableEq

namespace ByteStream

/-- The source `ByteStream.__init__(capacity)`. -/
def init (capacity : ℕ) : ByteStream :=
  { capacity := capacity
    buffer := []
    closed := false
    error := false
    bytes_pushed := 0
    bytes_popped := 0 }

def is_closed (s : ByteStream) : Bool := s.closed

def close (s : ByteStream) : ByteStream := { s with closed := true }

def available_capacity (s : ByteStream) : ℕ := s.capacity - s.buffer.length

def bytes_buffered (s : ByteStream) : ℕ := s.buffer.length

def is_finished (s : ByteStream) : Bool :=
  s.is_closed && (s.bytes_popped == s.bytes_pushed)

def has_error (s : ByteStream) : Bool := s.error

/-- Modelled from the spec: `set_error` is called by `TcpSender.receive`
and `Reassembler.set_error` and listed in the spec interface table
(`set_error() / has_error()` — sticky error), but no such method exists
in src/util/byte_stream.py; per the spec it sets the sticky error flag
that `has_error` reports. -/
def set_error (s : ByteStream) : ByteStream := { s with error := true }

/-- The source `ByteStream.push` (the Python method also returns
`len(data)`, which no caller in the core uses). -/
def push (s : ByteStream) (data : List ℕ) : Except String ByteStream :=
  if s.is_closed then .error "Stream is closed"
  else if s.available_capacity < data.length then .error "Not enough capacity"
  else .ok { s with
              buffer := s.buffer ++ data
              bytes_pushed := s.bytes_pushed + data.length }

/-- The source `ByteStream.peek(n)`: raises when the stream is finished,
truncates `n` to the buffered length, and (inside `RingBuffer.peek`) a
negative count reaches `bytearray(length)` and raises. -/
def peek (s : ByteStream) (n : ℤ) : Except String (List ℕ) :=
  if s.is_finished then .error "Stream is finished"
  else
    let n2 := if (s.buffer.length : ℤ) < n then (s.buffer.length : ℤ) else n
    if n2 < 0 then .error "negative count"
    else .ok (s.buffer.take n2.toNat)

/-- The source `ByteStream.pop(n)`: like `peek` but also removes the
returned bytes and advances `_bytes_popped` by the truncated count. -/
def pop (s : ByteStream) (n : ℤ) : Except String (List ℕ × ByteStream) :=
  if s.is_finished then .error "Stream is finished"
  else
    let n2 := if (s.buffer.length : ℤ) < n then (s.buffer.length : ℤ) else n
    if n2 < 0 then .error "negative count"
    else .ok (s.buffer.take n2.toNat,
      { s with
        buffer := s.buffer.drop n2.toNat
        bytes_popped := s.bytes_popped + n2.toNat })

end ByteStream

/-! ### Reassembler (src/mini_tcp/reassembler.py) -/

/-- Python slice assignment `l[i:i+len(seg)] = seg` (for an in-range
slice, which is the only way the source uses it). -/
def writeSlice {α : Type} (l : List α) (i : ℕ) (seg : List α) : List α :=
  l.take i ++ seg ++ l.drop (i + seg.length)

/-- The counting loop in `check_contiguous`:
`for i in range(window_size): if not bitmap[i]: break; count += 1`
(the bitmap always has length `window_size`). -/
def countLeadingTrue : List Bool → ℕ
  | [] => 0
  | b :: rest => if b then countLeadingTrue rest + 1 else 0

structure Reassembler where
  output : ByteStream
  unass_base : ℕ
  window_size : ℕ
  buffer : List ℕ
  bitmap : List Bool
  eof : Bool
  deriving DecidableEq

namespace Reassembler

/-- The source `Reassembler.__init__(output)`. -/
def init (output : ByteStream) : Reassembler :=
  { output := output
    unass_base := 0
    window_size := output.capacity
    buffer := List.replicate output.capacity 0
    bitmap := List.replicate output.capacity false
    eof := false }

/-- The source property `unass_size`: `self.bitmap.count(1)`. -/
def unass_size (r : Reassembler) : ℕ := r.bitmap.count true

/-- The loop `while len(self.buffer) < self.window_size:
self.buffer.append(0); self.bitmap.append(False)`. -/
def extendBuffers (r : Reassembler) : Reassembler :=
  { r with
    buffer := r.buffer ++ List.replicate (r.window_size - r.buffer.length) 0
    bitmap := r.bitmap ++ List.replicate (r.window_size - r.buffer.length) false }

/-- The source `Reassembler.check_contiguous`: push the contiguous
prefix to the output stream (which may raise), then shift buffer and
bitmap down and advance `unass_base`. -/
def check_contiguous (r : Reassembler) : Except String Reassembler :=
  let count := countLeadingTrue r.bitmap
  if 0 < count then
    match r.output.push (r.buffer.take count) with
    | .error e => .error e
    | .ok out =>
      .ok { r with
            output := out
            buffer := r.buffer.drop count ++ List.replicate count 0
            bitmap := r.bitmap.drop count ++ List.replicate count false
            unass_base := r.unass_base + count }
  else .ok r

/-- The store phase of the source `Reassembler.insert(index, data, eof)`
(its `if index >= self.unass_base` / `elif index + data_len >
self.unass_base` blocks).  `real_len` is a Python int that can be
negative, hence `ℤ`; the slice/loop writes only happen for a positive
`real_len` and stay inside the window. -/
def insertStore (r : Reassembler) (index : ℕ) (data : List ℕ) (eofFlag : Bool) :
    Reassembler :=
  if r.unass_base ≤ index then
    let offset := index - r.unass_base
    let real_len : ℤ :=
      min (data.length : ℤ) ((r.output.available_capacity : ℤ) - (offset : ℤ))
    let ra := if (data.length : ℤ) ≤ real_len ∧ eofFlag = true
              then { r with eof := true } else r
    let rb := extendBuffers ra
    if 0 < real_len then
      { rb with
        buffer := writeSlice rb.buffer offset (data.take real_len.toNat)
        bitmap := writeSlice rb.bitmap offset (List.replicate real_len.toNat true) }
    else rb
  else if r.unass_base < index + data.length then
    let offset := r.unass_base - index
    let real_len : ℤ :=
      min ((data.length : ℤ) - (offset : ℤ)) (r.output.available_capacity : ℤ)
    let ra := if (data.length : ℤ) - (offset : ℤ) ≤ real_len ∧ eofFlag = true
              then { r with eof := true } else r
    let rb := extendBuffers ra
    -- `for i in range(real_len): buffer[i] = data[offset+i]; bitmap[i] = True`
    { rb with
      buffer := writeSlice rb.buffer 0 ((data.drop offset).take real_len.toNat)
      bitmap := writeSlice rb.bitmap 0 (List.replicate real_len.toNat true) }
  else r

/-- The source `Reassembler.insert(index, data, eof)`: drop segments
beyond the window, run the store phase, drain the contiguous prefix
(which may raise from `output.push`), and close the output once the
pending EOF is reached. -/
def insert (r : Reassembler) (index : ℕ) (data : List ℕ) (eofFlag : Bool) :
    Except String Reassembler :=
  if r.unass_base + r.window_size ≤ index then .ok r
  else
    match check_contiguous (insertStore r index data eofFlag) with
    | .error e => .error e
    | .ok r2 =>
      if r2.eof && r2.unass_size == 0 then .ok { r2 with output := r2.output.close }
      else .ok r2

/-- States of the reassembler reachable by sequences of `insert` calls
(with the reader free to pop between calls): the window arrays have the
fixed window length, the window length is the output capacity, the
output never holds more than its capacity, the contiguous prefix has
been drained (leading bitmap run empty), every pending byte lies inside
the currently available window, and once the pending EOF was reached the
output was closed. -/
def Inv (r : Reassembler) : Prop :=
  r.window_size = r.output.capacity ∧
  r.buffer.length = r.window_size ∧
  r.bitmap.length = r.window_size ∧
  r.output.buffer.length ≤ r.output.capacity ∧
  countLeadingTrue r.bitmap = 0 ∧
  (∀ i : ℕ, i < r.bitmap.length → r.bitmap.getD i false = true →
    i < r.output.available_capacity) ∧
  (r.eof = true → r.unass_size = 0 → r.output.closed = true)

end Reassembler

/-! ### Messages (src/mini_tcp/tcp_message.py) -/

structure TCPReceiverMessage where
  ackno : Option ℕ := none
  window_size : ℤ := 0
  RST : Bool := false
  deriving DecidableEq

structure TCPSenderMessage where
  seqno : ℕ := 0
  payload : List ℕ := []
  SYN : Bool := false
  FIN : Bool := false
  RST : Bool := false
  deriving DecidableEq

/-- The source `TCPSenderMessage.squence_length` (name kept as spelled
in the source). -/
def TCPSenderMessage.squence_length (m : TCPSenderMessage) : ℕ :=
  m.payload.length + (if m.SYN then 1 else 0) + (if m.FIN then 1 else 0)

/-! ### Receiver half (src/mini_tcp/tcp_receiver.py)

The file defines its own helper classes at the bottom; in particular its
`Wrap32.wrap(value, isn)` is `(value + isn) % (1 << 32)` (modelled as
`wrapStub`).  On the real `Reassembler`, `window_size` is the attribute
holding the output capacity, and `writer()`/`reader()` resolve to the
owned output stream (`output_stream()` in reassembler.py);
`reassembler.has_error()` is `output.has_error()`. -/

/-- The helper `Wrap32.wrap` defined locally at the bottom of
tcp_receiver.py: `(value + isn) % (1 << 32)`. -/
def wrapStub (value isn : ℕ) : ℕ := (value + isn) % 2 ^ 32

structure TCPReceiver where
  reassembler : Reassembler
  isn : ℕ
  window_size : ℕ
  syn_received : Bool
  fin_received : Bool
  deriving DecidableEq

/-- The source `TCPReceiver.__init__(reassembler)`:
`window_size = min(reassembler.window_size, 65535)`. -/
def TCPReceiver.init (rsm : Reassembler) : TCPReceiver :=
  { reassembler := rsm
    isn := 0
    window_size := min rsm.window_size 65535
    syn_received := false
    fin_received := false }

/-- The source `TCPReceiver.send`. -/
def TCPReceiver.send (r : TCPReceiver) : TCPReceiverMessage :=
  let ackno :=
    if r.syn_received then
      let a := r.reassembler.output.bytes_pushed + 1
      let a := if r.fin_received && r.reassembler.output.is_closed then a + 1 else a
      some (wrapStub a r.isn)
    else none
  { ackno := ackno
    window_size := (r.window_size : ℤ) - (r.reassembler.output.bytes_buffered : ℤ)
    RST := r.reassembler.output.has_error }

/-! ### Sender half (src/mini_tcp/tcp_sender.py) -/

def MAX_PAYLOAD_SIZE : ℕ := 1000

def MAX_SEQNO : ℕ := 2 ^ 32 - 1

structure TcpSender where
  input_stream : ByteStream
  isn : ℕ
  initial_RTO : ℕ
  RTO : ℕ
  retrans_count : ℕ
  fin_seqno : ℕ
  next_seqno : ℕ
  ack_seqno : ℕ
  ack_received : Bool
  window_size : ℤ
  last_sent_time : ℕ
  outstanding_data : List TCPSenderMessage
  syn_sent : Bool
  fin_sent : Bool
  recv_zero_window_size : Bool
  deriving DecidableEq

namespace TcpSender

/-- The source `TcpSender.__init__(input_stream, isn, initial_RTO)`. -/
def init (input : ByteStream) (isn : ℕ) (initialRTO : ℕ) : TcpSender :=
  { input_stream := input
    isn := isn
    initial_RTO := initialRTO
    RTO := initialRTO
    retrans_count := 0
    fin_seqno := MAX_SEQNO
    next_seqno := 0
    ack_seqno := 0
    ack_received := false
    window_size := 1
    last_sent_time := 0
    outstanding_data := []
    syn_sent := false
    fin_sent := false
    recv_zero_window_size := false }

/-- The source `TcpSender.reset_timer`. -/
def reset_timer (s : TcpSender) : TcpSender :=
  { s with last_sent_time := 0, RTO := s.initial_RTO, retrans_count := 0 }

/-- The acknowledgment pop loop inside `TcpSender.receive`:
`while len(outstanding_data): seg = outstanding_data[0];
if seg.seqno.unwrap(isn, ack) + seg.squence_length() <= ack: popleft
else: break`. -/
def popAcked (isn ack : ℕ) : List TCPSenderMessage → List TCPSenderMessage
  | [] => []
  | seg :: rest =>
    if unwrap seg.seqno isn ack + seg.squence_length ≤ ack then popAcked isn ack rest
    else seg :: rest

/-- The source `TcpSender.receive(message)`.  Note that
`if message.window_size:` assigns a local variable `window_size` that is
never read afterwards; its only state effect is the zero-window flag.
The first `if` after unwrapping keeps the source as written: the
comment in the source says to ignore acks beyond `next_seqno`, but the
code assigns `ack_seqno` instead of returning. -/
def receive (s : TcpSender) (m : TCPReceiverMessage) : TcpSender :=
  let s1 := if m.RST then { s with input_stream := s.input_stream.set_error } else s
  let s2 := { s1 with recv_zero_window_size := m.window_size == 0 }
  match m.ackno with
  | none => s2
  | some a =>
    let new_ack := unwrap a s2.isn s2.ack_seqno
    let s3 := if s2.next_seqno < new_ack then { s2 with ack_seqno := new_ack } else s2
    let s4 :=
      if s3.ack_seqno < new_ack then
        reset_timer { s3 with
          ack_seqno := new_ack
          outstanding_data := popAcked s3.isn new_ack s3.outstanding_data }
      else s3
    if new_ack ≤ s4.ack_seqno ∧
        (s4.window_size + (s4.ack_seqno : ℤ) < m.window_size + (new_ack : ℤ)) then
      { s4 with window_size := (new_ack : ℤ) + m.window_size - (s4.ack_seqno : ℤ) }
    else s4

/-- The body of the source `TcpSender.push` loop, with an explicit
iteration budget making it structurally recursive; `push` supplies a
budget that suffices whenever the Python loop terminates (each
transmitted segment advances `next_seqno` by at least one while the
guard bounds it by `ack_seqno + window_size`), so running out of budget
models a diverging loop.  Transmitted messages are collected in order in
`acc`. -/
def pushLoop : ℕ → TcpSender → List TCPSenderMessage →
    Except String (TcpSender × List TCPSenderMessage)
  | 0, _, _ => .error "push loop exceeded its iteration budget"
  | fuel + 1, s, acc =>
    if 0 < s.window_size ∧ (s.next_seqno : ℤ) < (s.ack_seqno : ℤ) + s.window_size then
      let syn := s.next_seqno == 0
      let sa := if syn then { s with syn_sent := true } else s
      let rst := sa.input_stream.error
      let payload_size : ℤ :=
        min (sa.window_size - ((sa.next_seqno : ℤ) - (sa.ack_seqno : ℤ)) -
          (if syn then 1 else 0)) (MAX_PAYLOAD_SIZE : ℤ)
      let payload_size := min payload_size (sa.input_stream.bytes_buffered : ℤ)
      match sa.input_stream.peek payload_size with
      | .error e => .error e
      | .ok payload =>
        match sa.input_stream.pop payload_size with
        | .error e => .error e
        | .ok (_, stream2) =>
          let sb := { sa with input_stream := stream2 }
          let fin := sb.input_stream.is_finished &&
            decide ((sb.next_seqno : ℤ) + payload_size ≤ (sb.ack_seqno : ℤ) + sb.window_size) &&
            (sb.fin_seqno == MAX_SEQNO)
          let sc := if fin then
              { sb with
                fin_sent := true
                fin_seqno := ((sb.next_seqno : ℤ) + payload_size).toNat +
                  (if syn then 1 else 0) + 1 }
            else sb
          let msg : TCPSenderMessage :=
            { seqno := wrapAdd sc.isn sc.next_seqno
              payload := payload
              SYN := syn
              FIN := fin
              RST := rst }
          if msg.squence_length == 0 then .ok (sc, acc)
          else
            -- BUG kept from the source: `next_seqno +=
            -- min(next_seqno + squence_length, fin_seqno)`
            let sd := { sc with
              outstanding_data := sc.outstanding_data ++ [msg]
              next_seqno := sc.next_seqno +
                min (sc.next_seqno + msg.squence_length) sc.fin_seqno }
            if msg.FIN then .ok (sd, acc ++ [msg])
            else pushLoop fuel sd (acc ++ [msg])
    else .ok (s, acc)

/-- The source `TcpSender.push` (transmitted messages returned in
order). -/
def push (s : TcpSender) : Except String (TcpSender × List TCPSenderMessage) :=
  pushLoop (s.ack_seqno + s.window_size.toNat + 1 - s.next_seqno) s []

/-- The source `TcpSender.tick(ms_since_last_tick)`; the transmitted
(retransmitted) messages are returned alongside the new state. -/
def tick (s : TcpSender) (ms : ℕ) : TcpSender × List TCPSenderMessage :=
  match s.outstanding_data with
  | [] => (reset_timer s, [])
  | front :: _ =>
    let s1 := { s with last_sent_time := s.last_sent_time + ms }
    if s1.RTO ≤ s1.last_sent_time then
      if s1.recv_zero_window_size then (reset_timer s1, [front])
      else ({ s1 with
              last_sent_time := 0
              retrans_count := s1.retrans_count + 1
              RTO := s1.RTO * 2 }, [front])
    else (s1, [])

/-- The source `TcpSender.make_empty_message`. -/
def make_empty_message (s : TcpSender) : TCPSenderMessage :=
  { seqno := wrapAdd s.isn (min s.next_seqno s.fin_seqno)
    payload := []
    SYN := false
    FIN := false
    RST := s.input_stream.has_error }

end TcpSender

/-! ### Concrete states used by individual claim theorems -/

/-- An input stream holding the five bytes of `"hello"` inside a
capacity-10 `ByteStream`. -/
def helloStream : ByteStream :=
  { capacity := 10
    buffer := [104, 101, 108, 108, 111]
    closed := false
    error := false
    bytes_pushed := 5
    bytes_popped := 0 }

/-- A small non-finished stream: two bytes buffered in capacity 3. -/
def twoByteStream : ByteStream :=
  { capacity := 3
    buffer := [7, 8]
    closed := false
    error := false
    bytes_pushed := 2
    bytes_popped := 0 }

/-- A reassembler over a capacity-65536 output stream that has pushed
one byte which is still buffered (the state reached after
`insert(0, b"a", False)` on a fresh reassembler). -/
def bigReassembler : Reassembler :=
  { output :=
      { capacity := 65536
        buffer := [97]
        closed := false
        error := false
        bytes_pushed := 1
        bytes_popped := 0 }
    unass_base := 1
    window_size := 65536
    buffer := List.replicate 65536 0
    bitmap := List.replicate 65536 false
    eof := false }

/-- A sender with one outstanding segment, fresh timer state
(`RTO = initial_RTO = 1000`, `retrans_count = 0`, `last_sent_time = 0`). -/
def tickSender : TcpSender :=
  { TcpSender.init (ByteStream.init 1) 0 1000 with
    outstanding_data := [{ seqno := 0 }] }

lemma offsetMod_lt (raw zeroPoint : ℕ) (hr : raw < 2 ^ 32) (hz : zeroPoint < 2 ^ 32) :
    offsetMod raw zeroPoint < 2 ^ 32 := by
  unfold offsetMod; split <;> omega

lemma wrap_offsetMod (raw zeroPoint : ℕ) (hr : raw < 2 ^ 32) (hz : zeroPoint < 2 ^ 32) :
    (zeroPoint + offsetMod raw zeroPoint) % 2 ^ 32 = raw := by
  unfold offsetMod
  split
  · have h1 : zeroPoint + ((raw : ℤ) - zeroPoint + 2 ^ 32).toNat = raw + 2 ^ 32 := by omega
    rw [h1]
    omega
  · have h1 : zeroPoint + ((raw : ℤ) - zeroPoint).toNat = raw := by omega
    rw [h1]
    omega

/-- Combined facts about the bump loop, assuming the iteration budget is
large enough: the result exceeds `c`, has the same residue as the
starting point, and overshoots `c` by at most one period. -/
lemma bumpAboveAux_spec (fuel c tmp : ℕ) (h : c < tmp + 2 ^ 32 * fuel) :
    c < bumpAboveAux fuel c tmp ∧
    bumpAboveAux fuel c tmp % 2 ^ 32 = tmp % 2 ^ 32 ∧
    (tmp ≤ c + 2 ^ 32 → bumpAboveAux fuel c tmp ≤ c + 2 ^ 32) := by
  induction fuel generalizing tmp with
  | zero =>
    simp only [bumpAboveAux]
    exact ⟨by omega, trivial, fun h2 => h2⟩
  | succ n ih =>
    simp only [bumpAboveAux]
    by_cases hc : tmp ≤ c
    · rw [if_pos hc]
      obtain ⟨g1, g2, g3⟩ := ih (tmp + 2 ^ 32) (by omega)
      exact ⟨g1, by omega, fun _ => g3 (by omega)⟩
    · rw [if_neg hc]
      omega

lemma bumpAbove_fuel_enough (c tmp : ℕ) : c < tmp + 2 ^ 32 * (c + 1 - tmp) := by
  omega

lemma bumpAbove_spec (c tmp : ℕ) :
    c < bumpAbove c tmp ∧
    bumpAbove c tmp % 2 ^ 32 = tmp % 2 ^ 32 ∧
    (tmp ≤ c + 2 ^ 32 → bumpAbove c tmp ≤ c + 2 ^ 32) :=
  bumpAboveAux_spec _ c tmp (bumpAbove_fuel_enough c tmp)

lemma lor_high_bits (d c : ℕ) (hd : d < 2 ^ 32) :
    d ||| ((c >>> 32) <<< 32) = 2 ^ 32 * (c / 2 ^ 32) + d := by
  rw [Nat.shiftRight_eq_div_pow, Nat.shiftLeft_eq, Nat.lor_comm, Nat.mul_comm]
  exact (Nat.mul_add_lt_is_or hd _).symm

/-- Characterisation of `unwrap`: its result is a member of the candidate
set (same residue as `offsetMod raw zeroPoint` modulo `2 ^ 32`), it is at
least as close to the checkpoint as every candidate, ties go to the
larger candidate, and whenever some candidate lies at or below the
checkpoint the distance is at most `2 ^ 31`. -/
lemma unwrap_char (raw zeroPoint c : ℕ) (hd : offsetMod raw zeroPoint < 2 ^ 32) :
    unwrap raw zeroPoint c % 2 ^ 32 = offsetMod raw zeroPoint ∧
    (∀ b : ℕ, b % 2 ^ 32 = offsetMod raw zeroPoint →
      Nat.dist (unwrap raw zeroPoint c) c ≤ Nat.dist b c ∧
      (Nat.dist (unwrap raw zeroPoint c) c = Nat.dist b c → b ≤ unwrap raw zeroPoint c)) ∧
    (offsetMod raw zeroPoint ≤ c → Nat.dist (unwrap raw zeroPoint c) c ≤ 2 ^ 31) := by
  set d := offsetMod raw zeroPoint with hdef
  unfold unwrap
  rw [← hdef]
  by_cases hcase : c ≤ d
  · rw [if_pos hcase]
    refine ⟨Nat.mod_eq_of_lt hd, fun b hb => ?_, fun hcd => ?_⟩
    · have hbrep := Nat.div_add_mod b (2 ^ 32)
      rw [hb] at hbrep
      simp only [Nat.dist]
      omega
    · simp only [Nat.dist]
      omega
  · rw [if_neg hcase, lor_high_bits d c hd]
    simp only []
    set t3 := bumpAbove c (2 ^ 32 * (c / 2 ^ 32) + d) with ht3
    obtain ⟨f1, f2m, f3m⟩ := bumpAbove_spec c (2 ^ 32 * (c / 2 ^ 32) + d)
    rw [← ht3] at f1 f2m f3m
    have f2 : t3 % 2 ^ 32 = d := by
      rw [f2m]
      omega
    have fdiv : 2 ^ 32 * (c / 2 ^ 32) ≤ c := Nat.mul_div_le c (2 ^ 32)
    have f3 : t3 ≤ c + 2 ^ 32 := f3m (by omega)
    have f4 : 2 ^ 32 ≤ t3 := by
      have h3rep := Nat.div_add_mod t3 (2 ^ 32)
      rw [f2] at h3rep
      omega
    -- the result is either `t3 - 2 ^ 32` (the largest candidate at or
    -- below `c`) or `t3` (the smallest candidate above `c`)
    refine ⟨?_, fun b hb => ?_, fun _ => ?_⟩
    · split <;> omega
    · have hbrep := Nat.div_add_mod b (2 ^ 32)
      rw [hb] at hbrep
      have h3rep := Nat.div_add_mod t3 (2 ^ 32)
      rw [f2] at h3rep
      have h1rep := Nat.div_add_mod (t3 - 2 ^ 32) (2 ^ 32)
      have f5 : (t3 - 2 ^ 32) % 2 ^ 32 = d := by omega
      rw [f5] at h1rep
      constructor
      · split <;> simp only [Nat.dist] <;> omega
      · split <;> simp only [Nat.dist] <;> omega
    · split <;> simp only [Nat.dist] <;> omega

lemma offsetMod_wrap (n zeroPoint : ℕ) (hz : zeroPoint < 2 ^ 32) :
    offsetMod (wrap n zeroPoint) zeroPoint = n % 2 ^ 32 := by
  unfold wrap offsetMod
  split <;> omega


/-- C1 (amended): for every 32-bit `raw` and `zeroPoint` and every
checkpoint `c`, the value `a = unwrap raw zeroPoint c` wraps back to
`raw`, lies in the candidate set `{ d + k * 2 ^ 32 : k ≥ 0 }` (i.e. has
residue `d = offsetMod raw zeroPoint`), is at least as close to `c` as
every other candidate — with ties broken toward the LARGER candidate,
not the smaller one as the spec claims — and satisfies
`|a - c| ≤ 2 ^ 31` whenever some candidate lies at or below `c`
(i.e. `d ≤ c`; for `c < d` the closest candidate is `d` itself and the
distance can be as large as `2 ^ 32 - 1`).  Moreover
`unwrap (wrap n zeroPoint) zeroPoint n = n` for every `n`. -/
theorem unwrap_closest_spec (raw zeroPoint c : ℕ) (hr : raw < 2 ^ 32) (hz : zeroPoint < 2 ^ 32) :
    wrap (unwrap raw zeroPoint c) zeroPoint = raw ∧
    unwrap raw zeroPoint c % 2 ^ 32 = offsetMod raw zeroPoint ∧
    (∀ b : ℕ, b % 2 ^ 32 = offsetMod raw zeroPoint →
      Nat.dist (unwrap raw zeroPoint c) c ≤ Nat.dist b c ∧
      (Nat.dist (unwrap raw zeroPoint c) c = Nat.dist b c → b ≤ unwrap raw zeroPoint c)) ∧
    (offsetMod raw zeroPoint ≤ c → Nat.dist (unwrap raw zeroPoint c) c ≤ 2 ^ 31) ∧
    (∀ n : ℕ, unwrap (wrap n zeroPoint) zeroPoint n = n) := by
  obtain ⟨h1, h2, h3⟩ := unwrap_char raw zeroPoint c (offsetMod_lt _ _ hr hz)
  refine ⟨?_, h1, h2, h3, fun n => ?_⟩
  · have hw := wrap_offsetMod raw zeroPoint hr hz
    unfold wrap
    rw [h1]
    exact hw
  · have hofs := offsetMod_wrap n zeroPoint hz
    obtain ⟨g1, g2, g3⟩ := unwrap_char (wrap n zeroPoint) zeroPoint n
      (by rw [hofs]; exact Nat.mod_lt _ (by norm_num))
    obtain ⟨hle, _⟩ := g2 n (by rw [hofs])
    simp only [Nat.dist] at hle
    omega

/-- C1 (counterexample): the claimed bound `|a - c| ≤ 2 ^ 31` fails at
`w = 2 ^ 32 - 1, z = 0, c = 0` (the only candidates are
`2 ^ 32 - 1 + k * 2 ^ 32`, so the distance is `2 ^ 32 - 1`), and the
claimed tie-break toward the smaller candidate fails at
`w = 2 ^ 31, z = 0, c = 2 ^ 32`: the candidates `2 ^ 31` and
`2 ^ 31 + 2 ^ 32` are equidistant from `c` and the code returns the
larger one. -/
theorem unwrap_claim_refuted :
    unwrap 4294967295 0 0 = 4294967295 ∧
    ¬ Nat.dist (unwrap 4294967295 0 0) 0 ≤ 2 ^ 31 ∧
    unwrap 2147483648 0 4294967296 = 6442450944 ∧
    (2147483648 : ℕ) % 2 ^ 32 = offsetMod 2147483648 0 ∧
    Nat.dist 2147483648 4294967296 = Nat.dist (unwrap 2147483648 0 4294967296) 4294967296 ∧
    (2147483648 : ℕ) < unwrap 2147483648 0 4294967296 := by
  refine ⟨by decide, by decide, by decide, by decide, by decide, by decide⟩

/-- C1 (witness): `unwrap_closest_spec` applied at the concrete input
`raw = 5, zeroPoint = 3, c = 70`. -/
theorem unwrap_closest_spec_witness :
    (5 : ℕ) < 2 ^ 32 ∧ (3 : ℕ) < 2 ^ 32 ∧
    (wrap (unwrap 5 3 70) 3 = 5 ∧
     unwrap 5 3 70 % 2 ^ 32 = offsetMod 5 3 ∧
     (∀ b : ℕ, b % 2 ^ 32 = offsetMod 5 3 →
       Nat.dist (unwrap 5 3 70) 70 ≤ Nat.dist b 70 ∧
       (Nat.dist (unwrap 5 3 70) 70 = Nat.dist b 70 → b ≤ unwrap 5 3 70)) ∧
     (offsetMod 5 3 ≤ 70 → Nat.dist (unwrap 5 3 70) 70 ≤ 2 ^ 31) ∧
     (∀ n : ℕ, unwrap (wrap n 3) 3 n = n)) :=
  ⟨by norm_num, by norm_num, unwrap_closest_spec 5 3 70 (by norm_num) (by norm_num)⟩

/-- C2 (code bug): the spec (and the comment in the source) say an
ackno unwrapping beyond `next_seqno` is ignored with no state change,
but `TcpSender.receive` assigns `ack_seqno = new_ack_seqno` in exactly
that case.  On a fresh sender (`ack_seqno = next_seqno = 0`, checkpoint
0) an ackno of raw value 5 unwraps to 5 > 0, yet the call mutates
`ack_seqno` to 5. -/
theorem receive_impossible_ack_mutates :
    unwrap 5 0 0 = 5 ∧
    (TcpSender.init (ByteStream.init 4) 0 1000).next_seqno = 0 ∧
    (TcpSender.init (ByteStream.init 4) 0 1000).ack_seqno = 0 ∧
    ((TcpSender.init (ByteStream.init 4) 0 1000).receive
      { ackno := some 5, window_size := 1, RST := false }).ack_seqno = 5 :=
  ⟨by decide, rfl, rfl, by decide⟩

/-- C3 (code bug): the window invariant
`next_seqno ≤ ack_seqno + max(window_size, 1)` is violated by `push`
because the source advances `next_seqno` with
`next_seqno += min(next_seqno + squence_length, fin_seqno)` instead of
`next_seqno = min(next_seqno + squence_length, fin_seqno)`.  Starting
from a fresh sender over a stream holding 5 bytes: `push` sends SYN
(`next_seqno = 1`), an ack of 1 with window 3 arrives, and the next
`push` sends a 3-byte segment but advances `next_seqno` to
`1 + min(1 + 3, 2^32 - 1) = 5 > 1 + max(3, 1) = 4`. -/
theorem push_window_invariant_violated :
    (((TcpSender.init helloStream 0 1000).push).bind
      (fun p => ((p.1.receive { ackno := some 1, window_size := 3, RST := false }).push).map
        (fun q => (q.1.next_seqno, q.1.ack_seqno, q.1.window_size)))) = .ok (5, 1, 3) ∧
    ¬ ((5 : ℤ) ≤ (1 : ℤ) + max 3 1) :=
  ⟨rfl, by decide⟩

/-- C7 (counterexample): on a stream that is closed and fully drained
(`is_finished`), both `pop(0)` and `peek(0)` raise
`ValueError("Stream is finished")` instead of succeeding with the empty
result as the claim states. -/
theorem pop_peek_claim_refuted :
    ((ByteStream.init 1).close).is_finished = true ∧
    ((ByteStream.init 1).close).pop 0 = .error "Stream is finished" ∧
    ((ByteStream.init 1).close).peek 0 = .error "Stream is finished" :=
  ⟨rfl, rfl, rfl⟩

/-- C7 (amended): for every `n ≥ 0`, on a stream that is NOT finished,
`peek n` succeeds with the first `min(n, bytes_buffered)` buffered bytes
and `pop n` succeeds, removing and returning exactly those
`min(n, bytes_buffered)` bytes (silently truncating); on a finished
stream (closed and fully drained) both raise `ValueError`. -/
theorem pop_peek_spec (s : ByteStream) (n : ℤ) (hn : 0 ≤ n) :
    (s.is_finished = false →
      s.peek n = .ok (s.buffer.take (min n.toNat s.buffer.length)) ∧
      s.pop n = .ok (s.buffer.take (min n.toNat s.buffer.length),
        { s with
          buffer := s.buffer.drop (min n.toNat s.buffer.length)
          bytes_popped := s.bytes_popped + min n.toNat s.buffer.length }) ∧
      (s.buffer.take (min n.toNat s.buffer.length)).length = min n.toNat s.bytes_buffered) ∧
    (s.is_finished = true →
      s.peek n = .error "Stream is finished" ∧ s.pop n = .error "Stream is finished") := by
  have hmin : (if (s.buffer.length : ℤ) < n then (s.buffer.length : ℤ) else n).toNat
      = min n.toNat s.buffer.length := by split <;> omega
  have hneg : ¬ ((if (s.buffer.length : ℤ) < n then (s.buffer.length : ℤ) else n) < 0) := by
    split <;> omega
  refine ⟨fun hf => ?_, fun hf => ?_⟩
  · simp only [ByteStream.peek, ByteStream.pop, hf, Bool.false_eq_true, if_false,
      if_neg hneg, hmin]
    refine ⟨trivial, trivial, ?_⟩
    simp only [List.length_take, ByteStream.bytes_buffered]
    omega
  · simp only [ByteStream.peek, ByteStream.pop, hf, if_true]
    exact ⟨trivial, trivial⟩

/-- C7 (witness): `pop_peek_spec` applied to a non-finished stream with
two buffered bytes and `n = 5`. -/
theorem pop_peek_spec_witness :
    (0 : ℤ) ≤ 5 ∧
    ((twoByteStream.is_finished = false →
      twoByteStream.peek 5 = .ok (twoByteStream.buffer.take
        (min (5 : ℤ).toNat twoByteStream.buffer.length)) ∧
      twoByteStream.pop 5 = .ok (twoByteStream.buffer.take
        (min (5 : ℤ).toNat twoByteStream.buffer.length),
        { twoByteStream with
          buffer := twoByteStream.buffer.drop (min (5 : ℤ).toNat twoByteStream.buffer.length)
          bytes_popped := twoByteStream.bytes_popped +
            min (5 : ℤ).toNat twoByteStream.buffer.length }) ∧
      (twoByteStream.buffer.take (min (5 : ℤ).toNat twoByteStream.buffer.length)).length
        = min (5 : ℤ).toNat twoByteStream.bytes_buffered) ∧
    (twoByteStream.is_finished = true →
      twoByteStream.peek 5 = .error "Stream is finished" ∧
      twoByteStream.pop 5 = .error "Stream is finished")) :=
  ⟨by decide, pop_peek_spec twoByteStream 5 (by decide)⟩

/-- C9 (counterexample): the receiver window field is computed as
`min(capacity, 65535) - bytes_buffered`, not
`min(capacity - bytes_buffered, 65535)`.  With output capacity 65536 and
one buffered byte the message carries 65534 while the claimed formula
gives 65535. -/
theorem window_size_claim_refuted :
    (TCPReceiver.init bigReassembler).send.window_size = 65534 ∧
    min ((bigReassembler.output.capacity : ℤ) -
      (bigReassembler.output.bytes_buffered : ℤ)) 65535 = 65535 ∧
    (65534 : ℤ) ≠ 65535 :=
  ⟨rfl, by decide, by decide⟩

/-- C9 (amended): the window field of every produced receiver message
equals `min(capacity, 65535) - bytes_buffered` (where the receiver was
initialised from a reassembler whose `window_size` is the output
capacity), and it never exceeds 65535. -/
theorem send_window_size_spec (r : TCPReceiver)
    (h : r.window_size = min r.reassembler.window_size 65535) :
    r.send.window_size =
      (min (r.reassembler.window_size : ℤ) 65535) -
        (r.reassembler.output.bytes_buffered : ℤ) ∧
    r.send.window_size ≤ 65535 := by
  simp only [TCPReceiver.send, h]
  constructor
  · push_cast
    omega
  · push_cast
    omega

/-- C9 (witness): `send_window_size_spec` applied to the receiver made
from a fresh reassembler over a capacity-4 stream. -/
theorem send_window_size_spec_witness :
    (TCPReceiver.init (Reassembler.init (ByteStream.init 4))).window_size =
      min (TCPReceiver.init (Reassembler.init (ByteStream.init 4))).reassembler.window_size
        65535 ∧
    ((TCPReceiver.init (Reassembler.init (ByteStream.init 4))).send.window_size =
      (min ((TCPReceiver.init
        (Reassembler.init (ByteStream.init 4))).reassembler.window_size : ℤ) 65535) -
        ((TCPReceiver.init
          (Reassembler.init (ByteStream.init 4))).reassembler.output.bytes_buffered : ℤ) ∧
     (TCPReceiver.init (Reassembler.init (ByteStream.init 4))).send.window_size ≤ 65535) :=
  ⟨rfl, send_window_size_spec _ rfl⟩

/-- C5: the receiver message carries `ackno = none` when no SYN has been
received, and otherwise `wrap(bytes_pushed + 1 + fin_bit, isn)` where
`fin_bit` is 1 exactly when the inbound stream has finished — the FIN
has been recorded (`fin_received`) and the reassembler has assembled all
its bytes and closed the output stream.  (The source computes the ackno
with the local `Wrap32.wrap` stub `(value + isn) % 2^32`, which agrees
with `Wrap32.wrap` of wrapping_intergers.py.) -/
theorem send_ackno_spec (r : TCPReceiver) :
    r.send.ackno =
      if r.syn_received = true then
        some (wrap (r.reassembler.output.bytes_pushed + 1 +
          (if r.fin_received = true ∧ r.reassembler.output.closed = true then 1 else 0)) r.isn)
      else none := by
  cases hs : r.syn_received <;> cases hf : r.fin_received <;>
    cases hc : r.reassembler.output.closed <;>
      simp [TCPReceiver.send, wrapStub, wrap, ByteStream.is_closed, hs, hf, hc] <;> omega

lemma receive_input_stream_error (s : TcpSender) (m : TCPReceiverMessage) :
    (s.receive m).input_stream.error = (s.input_stream.error || m.RST) := by
  cases hR : m.RST <;> cases hA : m.ackno <;>
    simp only [TcpSender.receive, hR, hA, if_true, if_false, Bool.or_true, Bool.or_false,
      ByteStream.set_error] <;>
    split_ifs <;> simp_all [TcpSender.reset_timer]


lemma pop_ok_error (s : ByteStream) (n : ℤ) (bs : List ℕ) (s2 : ByteStream)
    (h : s.pop n = .ok (bs, s2)) : s2.error = s.error := by
  simp only [ByteStream.pop] at h
  split_ifs at h <;> simp_all
  all_goals rw [← h.2]

lemma pushLoop_error_eq (fuel : ℕ) : ∀ (s : TcpSender) (acc : List TCPSenderMessage)
    (s2 : TcpSender) (msgs : List TCPSenderMessage),
    TcpSender.pushLoop fuel s acc = .ok (s2, msgs) →
    s2.input_stream.error = s.input_stream.error := by
  induction fuel with
  | zero =>
    intro s acc s2 msgs h
    exact absurd h (by simp [TcpSender.pushLoop])
  | succ n ih =>
    intro s acc s2 msgs h
    rw [TcpSender.pushLoop] at h
    split_ifs at h with hguard
    case neg =>
      simp only [Except.ok.injEq, Prod.mk.injEq] at h
      rw [← h.1]
    case pos =>
      simp only [] at h
      split at h
      · exact absurd h (by simp)
      case h_2 payload hpk =>
        split at h
        · exact absurd h (by simp)
        case h_2 fst snd hpp =>
          have herr2 : snd.error = s.input_stream.error := by
            have h3 := pop_ok_error _ _ _ _ hpp
            split_ifs at h3 <;> simp_all
          split_ifs at h <;>
            first
            | (simp only [Except.ok.injEq, Prod.mk.injEq] at h
               rw [← h.1]
               exact herr2)
            | (have h4 := ih _ _ _ _ h
               rw [h4]
               exact herr2)

lemma tick_input_stream (s : TcpSender) (ms : ℕ) :
    ((s.tick ms).1).input_stream = s.input_stream := by
  rcases houts : s.outstanding_data with _ | ⟨f, rest⟩
  · simp only [TcpSender.tick, houts, TcpSender.reset_timer]
  · simp only [TcpSender.tick, houts, TcpSender.reset_timer]
    split_ifs <;> rfl

/-- C8: when the sender receives a message with RST set, it marks the
outbound stream via `set_error` (modelled from the spec, since the
method is missing from byte_stream.py); the flag is sticky — `has_error`
stays true across every later `receive`, `tick`, and successful `push` —
and `make_empty_message` then carries `RST = true`. -/
theorem rst_sets_sticky_error (s : TcpSender) (m : TCPReceiverMessage) (h : m.RST = true) :
    (s.receive m).input_stream.has_error = true ∧
    (s.receive m).make_empty_message.RST = true ∧
    (∀ m2 : TCPReceiverMessage, ((s.receive m).receive m2).input_stream.has_error = true) ∧
    (∀ ms : ℕ, (((s.receive m).tick ms).1).input_stream.has_error = true) ∧
    (∀ (s2 : TcpSender) (msgs : List TCPSenderMessage),
      (s.receive m).push = .ok (s2, msgs) → s2.input_stream.has_error = true) := by
  have h1 : (s.receive m).input_stream.error = true := by
    rw [receive_input_stream_error, h, Bool.or_true]
  refine ⟨h1, ?_, fun m2 => ?_, fun ms => ?_, fun s2 msgs hp => ?_⟩
  · simp only [TcpSender.make_empty_message, ByteStream.has_error, h1]
  · show ((s.receive m).receive m2).input_stream.error = true
    rw [receive_input_stream_error, h1, Bool.true_or]
  · show (((s.receive m).tick ms).1).input_stream.error = true
    rw [tick_input_stream, h1]
  · show s2.input_stream.error = true
    rw [TcpSender.push] at hp
    rw [pushLoop_error_eq _ _ _ _ _ hp, h1]

/-- C4 (amended): on a tick where the outstanding queue is non-empty and
the accumulated time reaches `current_RTO`, the sender retransmits the
earliest outstanding segment; when the peer last advertised a non-zero
window it increments `consecutive_retransmissions` and doubles
`current_RTO` (so with `current_RTO = initial_RTO * 2 ^ k` beforehand it
becomes `initial_RTO * 2 ^ (k + 1)`); when the peer last advertised a
ZERO window it resets the whole timer — `current_RTO` returns to
`initial_RTO` and `consecutive_retransmissions` to 0 — rather than
leaving `current_RTO` unchanged and incrementing the counter as the
claim states. -/
theorem tick_retransmit_spec (s : TcpSender) (ms : ℕ) (front : TCPSenderMessage)
    (rest : List TCPSenderMessage) (hq : s.outstanding_data = front :: rest)
    (hto : s.RTO ≤ s.last_sent_time + ms)
    (hrto : s.RTO = s.initial_RTO * 2 ^ s.retrans_count) :
    (s.tick ms).2 = [front] ∧
    (s.recv_zero_window_size = false →
      (s.tick ms).1.retrans_count = s.retrans_count + 1 ∧
      (s.tick ms).1.RTO = s.initial_RTO * 2 ^ (s.retrans_count + 1) ∧
      (s.tick ms).1.last_sent_time = 0) ∧
    (s.recv_zero_window_size = true →
      (s.tick ms).1.RTO = s.initial_RTO ∧ (s.tick ms).1.retrans_count = 0 ∧
      (s.tick ms).1.last_sent_time = 0) := by
  have hcond : ({ s with last_sent_time := s.last_sent_time + ms } : TcpSender).RTO ≤
      ({ s with last_sent_time := s.last_sent_time + ms } : TcpSender).last_sent_time := hto
  cases hz : s.recv_zero_window_size
  · simp only [TcpSender.tick, hq, TcpSender.reset_timer, hz, if_pos hcond, if_true,
      if_false, Bool.false_eq_true, Bool.true_eq_false]
    refine ⟨trivial, fun _ => ⟨trivial, ?_, trivial⟩, fun hx => by simp at hx⟩
    show s.RTO * 2 = s.initial_RTO * 2 ^ (s.retrans_count + 1)
    rw [hrto]
    ring
  · simp only [TcpSender.tick, hq, TcpSender.reset_timer, hz, if_pos hcond, if_true,
      if_false, Bool.false_eq_true, Bool.true_eq_false]
    exact ⟨trivial, fun hx => by simp at hx, fun _ => ⟨trivial, trivial, trivial⟩⟩

/-- C4 (counterexample): on a reachable trace (SYN pushed; timeout with
non-zero peer window doubles the RTO to 2000 and sets
`consecutive_retransmissions = 1`; a zero-window receiver message
arrives; the timer expires again), the zero-window expiry calls
`reset_timer`, so `current_RTO` drops back to `initial_RTO = 1000`
(the claim says it is left unchanged at 2000) and
`consecutive_retransmissions` is reset to 0 (the claim says it is
incremented to 2). -/
theorem tick_zero_window_claim_refuted :
    (((TcpSender.init (ByteStream.init 4) 0 1000).push).map (fun p =>
      let s2 := (p.1.tick 1000).1
      let s3 := s2.receive { ackno := none, window_size := 0, RST := false }
      let s4 := (s3.tick 2000).1
      (s2.RTO, s2.retrans_count, s3.recv_zero_window_size, s3.RTO, s4.RTO, s4.retrans_count)))
      = .ok (2000, 1, true, 2000, 1000, 0) ∧
    (1000 : ℕ) ≠ 2000 ∧ (0 : ℕ) ≠ 1 + 1 :=
  ⟨rfl, by decide, by decide⟩

/-- C4 (witness): `tick_retransmit_spec` applied to `tickSender` (one
outstanding segment, fresh timer) with `ms = 1000`. -/
theorem tick_retransmit_spec_witness :
    tickSender.outstanding_data = [({ seqno := 0 } : TCPSenderMessage)] ∧
    tickSender.RTO ≤ tickSender.last_sent_time + 1000 ∧
    tickSender.RTO = tickSender.initial_RTO * 2 ^ tickSender.retrans_count ∧
    ((tickSender.tick 1000).2 = [({ seqno := 0 } : TCPSenderMessage)] ∧
     (tickSender.recv_zero_window_size = false →
       (tickSender.tick 1000).1.retrans_count = tickSender.retrans_count + 1 ∧
       (tickSender.tick 1000).1.RTO =
         tickSender.initial_RTO * 2 ^ (tickSender.retrans_count + 1) ∧
       (tickSender.tick 1000).1.last_sent_time = 0) ∧
     (tickSender.recv_zero_window_size = true →
       (tickSender.tick 1000).1.RTO = tickSender.initial_RTO ∧
       (tickSender.tick 1000).1.retrans_count = 0 ∧
       (tickSender.tick 1000).1.last_sent_time = 0)) :=
  ⟨rfl, by decide, by decide, tick_retransmit_spec tickSender 1000 _ _ rfl (by decide) (by decide)⟩

/-- C8 (witness): `rst_sets_sticky_error` applied to a fresh sender and
a receiver message with RST set. -/
theorem rst_sets_sticky_error_witness :
    ({ ackno := none, window_size := 0, RST := true } : TCPReceiverMessage).RST = true ∧
    (((TcpSender.init (ByteStream.init 2) 0 1000).receive
        { ackno := none, window_size := 0, RST := true }).input_stream.has_error = true ∧
     ((TcpSender.init (ByteStream.init 2) 0 1000).receive
        { ackno := none, window_size := 0, RST := true }).make_empty_message.RST = true ∧
     (∀ m2 : TCPReceiverMessage,
       (((TcpSender.init (ByteStream.init 2) 0 1000).receive
          { ackno := none, window_size := 0, RST := true }).receive
            m2).input_stream.has_error = true) ∧
     (∀ ms : ℕ,
       ((((TcpSender.init (ByteStream.init 2) 0 1000).receive
          { ackno := none, window_size := 0, RST := true }).tick
            ms).1).input_stream.has_error = true) ∧
     (∀ (s2 : TcpSender) (msgs : List TCPSenderMessage),
       ((TcpSender.init (ByteStream.init 2) 0 1000).receive
          { ackno := none, window_size := 0, RST := true }).push = .ok (s2, msgs) →
         s2.input_stream.has_error = true)) :=
  ⟨rfl, rst_sets_sticky_error _ _ rfl⟩

lemma countLeadingTrue_le_length (l : List Bool) : countLeadingTrue l ≤ l.length := by
  induction l with
  | nil => simp [countLeadingTrue]
  | cons b rest ih =>
    simp only [countLeadingTrue, List.length_cons]
    split <;> omega

lemma countLeadingTrue_true (l : List Bool) (j : ℕ) (h : j < countLeadingTrue l) :
    l.getD j false = true := by
  induction l generalizing j with
  | nil => simp [countLeadingTrue] at h
  | cons b rest ih =>
    simp only [countLeadingTrue] at h
    split at h
    · cases j with
      | zero => simpa using by assumption
      | succ k =>
        simp only [List.getD_cons_succ]
        exact ih k (by omega)
    · omega

lemma countLeadingTrue_getD_self (l : List Bool) :
    l.getD (countLeadingTrue l) false = false := by
  induction l with
  | nil => simp
  | cons b rest ih =>
    simp only [countLeadingTrue]
    split
    · simpa using ih
    · simpa using by simp_all

lemma countLeadingTrue_eq_zero (l : List Bool) (h : l.getD 0 false = false) :
    countLeadingTrue l = 0 := by
  cases l with
  | nil => rfl
  | cons b rest => simp_all [countLeadingTrue]

lemma countLeadingTrue_le (l : List Bool) (A : ℕ)
    (h : ∀ i, i < l.length → l.getD i false = true → i < A) :
    countLeadingTrue l ≤ A := by
  rcases Nat.eq_zero_or_pos (countLeadingTrue l) with h0 | h0
  · omega
  · have h1 := countLeadingTrue_true l (countLeadingTrue l - 1) (by omega)
    have h2 := countLeadingTrue_le_length l
    have := h (countLeadingTrue l - 1) (by omega) h1
    omega

lemma writeSlice_length {α : Type} (l seg : List α) (i : ℕ)
    (h : i + seg.length ≤ l.length) :
    (writeSlice l i seg).length = l.length := by
  simp [writeSlice]
  omega

lemma writeSlice_getD_cases {α : Type} (l seg : List α) (i j : ℕ) (d : α)
    (hle : i + seg.length ≤ l.length) :
    (writeSlice l i seg).getD j d = l.getD j d ∨ (i ≤ j ∧ j < i + seg.length) := by
  rcases Nat.lt_or_ge j i with hj | hj
  · left
    simp only [writeSlice, List.getD_eq_getElem?_getD]
    rw [List.getElem?_append_left (show j < (l.take i ++ seg).length by simp; omega),
      List.getElem?_append_left (show j < (l.take i).length by simp; omega),
      List.getElem?_take_of_lt hj]
  · rcases Nat.lt_or_ge j (i + seg.length) with hj2 | hj2
    · right
      omega
    · left
      simp only [writeSlice, List.getD_eq_getElem?_getD]
      rw [List.getElem?_append_right (show (l.take i ++ seg).length ≤ j by simp; omega),
        List.getElem?_drop]
      congr 2
      simp
      omega

lemma extendBuffers_eq (r : Reassembler) (hb : r.buffer.length = r.window_size) :
    Reassembler.extendBuffers r = r := by
  simp [Reassembler.extendBuffers, hb]

lemma close_eq_self (s : ByteStream) (h : s.closed = true) : s.close = s := by
  cases s
  simp_all [ByteStream.close]

lemma drop_pad_getD (l : List Bool) (count j : ℕ) (hc : count ≤ l.length) :
    (l.drop count ++ List.replicate count false).getD j false =
      if j < l.length - count then l.getD (count + j) false else false := by
  simp only [List.getD_eq_getElem?_getD]
  rcases Nat.lt_or_ge j (l.length - count) with hj | hj
  · rw [if_pos hj, List.getElem?_append_left (by simp; omega), List.getElem?_drop]
  · rw [if_neg (by omega), List.getElem?_append_right (by simp; omega)]
    rw [List.getElem?_replicate]
    split <;> rfl

lemma countLeadingTrue_drain (l : List Bool) :
    countLeadingTrue
      (l.drop (countLeadingTrue l) ++ List.replicate (countLeadingTrue l) false) = 0 := by
  apply countLeadingTrue_eq_zero
  rw [drop_pad_getD _ _ _ (countLeadingTrue_le_length l)]
  split
  · simpa using countLeadingTrue_getD_self l
  · rfl

lemma check_contiguous_spec (r : Reassembler)
    (hwcap : r.window_size = r.output.capacity)
    (hlen : r.buffer.length = r.window_size)
    (hblen : r.bitmap.length = r.window_size)
    (hbuf : r.output.buffer.length ≤ r.output.capacity)
    (hpos : ∀ i, i < r.bitmap.length → r.bitmap.getD i false = true →
      i < r.output.available_capacity) :
    (∀ e, Reassembler.check_contiguous r = .error e → e = "Stream is closed") ∧
    (∀ r2, Reassembler.check_contiguous r = .ok r2 →
      r2.window_size = r.window_size ∧ r2.eof = r.eof ∧
      r2.output.capacity = r.output.capacity ∧ r2.output.closed = r.output.closed ∧
      r2.buffer.length = r2.window_size ∧ r2.bitmap.length = r2.window_size ∧
      r2.output.buffer.length ≤ r2.output.capacity ∧
      countLeadingTrue r2.bitmap = 0 ∧
      (∀ i, i < r2.bitmap.length → r2.bitmap.getD i false = true →
        i < r2.output.available_capacity)) := by
  have hcleA : countLeadingTrue r.bitmap ≤ r.output.available_capacity :=
    countLeadingTrue_le _ _ hpos
  have hclen : countLeadingTrue r.bitmap ≤ r.bitmap.length := countLeadingTrue_le_length _
  have havail : r.output.available_capacity ≤ r.output.capacity := Nat.sub_le _ _
  unfold Reassembler.check_contiguous
  simp only []
  by_cases h0 : 0 < countLeadingTrue r.bitmap
  case neg =>
    rw [if_neg h0]
    refine ⟨fun e he => absurd he (by simp), fun r2 h2 => ?_⟩
    simp only [Except.ok.injEq] at h2
    subst h2
    exact ⟨rfl, rfl, rfl, rfl, hlen, hblen, hbuf, by omega, hpos⟩
  case pos =>
    rw [if_pos h0]
    have htklen : (r.buffer.take (countLeadingTrue r.bitmap)).length
        = countLeadingTrue r.bitmap := by
      simp only [List.length_take]
      omega
    unfold ByteStream.push
    by_cases hcl : r.output.is_closed = true
    · rw [if_pos hcl]
      refine ⟨fun e he => ?_, fun r2 h2 => ?_⟩
      · simp only [] at he
        simp at he
        exact he.symm
      · simp only [] at h2
        simp at h2
    · rw [if_neg hcl]
      rw [if_neg (show ¬ (r.output.available_capacity <
        (r.buffer.take (countLeadingTrue r.bitmap)).length) by rw [htklen]; omega)]
      refine ⟨fun e he => absurd he (by simp), fun r2 h2 => ?_⟩
      simp only [Except.ok.injEq] at h2
      subst h2
      refine ⟨rfl, rfl, rfl, rfl, ?_, ?_, ?_, ?_, ?_⟩
      · simp only [List.length_append, List.length_drop, List.length_replicate]
        omega
      · simp only [List.length_append, List.length_drop, List.length_replicate]
        omega
      · simp only [ByteStream.bytes_buffered, List.length_append, htklen]
        unfold ByteStream.available_capacity at hcleA
        omega
      · exact countLeadingTrue_drain r.bitmap
      · intro i hi htrue
        rw [drop_pad_getD _ _ _ hclen] at htrue
        unfold ByteStream.available_capacity at hcleA hpos ⊢
        simp only [List.length_append, htklen]
        split at htrue
        · have := hpos (countLeadingTrue r.bitmap + i) (by omega) htrue
          omega
        · simp at htrue

lemma insertStore_write1 (r : Reassembler) (index : ℕ) (data : List ℕ)
    (hwcap : r.window_size = r.output.capacity)
    (hlen : r.buffer.length = r.window_size)
    (hblen : r.bitmap.length = r.window_size)
    (hpos : ∀ i, i < r.bitmap.length → r.bitmap.getD i false = true →
      i < r.output.available_capacity)
    (havail : r.output.available_capacity ≤ r.output.capacity)
    (h2 : 0 < (data.length : ℤ) ⊓ ((r.output.available_capacity : ℤ) -
      (index - r.unass_base : ℕ))) :
    True ∧ True ∧
    (writeSlice r.buffer (index - r.unass_base)
      (List.take ((data.length : ℤ) ⊓ ((r.output.available_capacity : ℤ) -
        (index - r.unass_base : ℕ))).toNat data)).length = r.window_size ∧
    (writeSlice r.bitmap (index - r.unass_base)
      (List.replicate ((data.length : ℤ) ⊓ ((r.output.available_capacity : ℤ) -
        (index - r.unass_base : ℕ))).toNat true)).length = r.window_size ∧
    (∀ i, i < (writeSlice r.bitmap (index - r.unass_base)
        (List.replicate ((data.length : ℤ) ⊓ ((r.output.available_capacity : ℤ) -
          (index - r.unass_base : ℕ))).toNat true)).length →
      (writeSlice r.bitmap (index - r.unass_base)
        (List.replicate ((data.length : ℤ) ⊓ ((r.output.available_capacity : ℤ) -
          (index - r.unass_base : ℕ))).toNat true)).getD i false = true →
      i < r.output.available_capacity) := by
  refine ⟨trivial, trivial, ?_, ?_, ?_⟩
  · rw [writeSlice_length _ _ _ (by simp [List.length_take]; omega)]
    exact hlen
  · rw [writeSlice_length _ _ _ (by simp [List.length_replicate]; omega)]
    exact hblen
  · intro i hi htrue
    rw [writeSlice_length _ _ _ (by simp [List.length_replicate]; omega)] at hi
    rcases writeSlice_getD_cases r.bitmap
        (List.replicate ((data.length : ℤ) ⊓ ((r.output.available_capacity : ℤ) -
          (index - r.unass_base : ℕ))).toNat true)
        (index - r.unass_base) i false (by simp [List.length_replicate]; omega)
      with hcase | hcase
    · rw [hcase] at htrue
      exact hpos i hi htrue
    · simp only [List.length_replicate] at hcase
      omega

lemma insertStore_write2 (r : Reassembler) (index : ℕ) (data : List ℕ)
    (hwcap : r.window_size = r.output.capacity)
    (hlen : r.buffer.length = r.window_size)
    (hblen : r.bitmap.length = r.window_size)
    (hpos : ∀ i, i < r.bitmap.length → r.bitmap.getD i false = true →
      i < r.output.available_capacity)
    (havail : r.output.available_capacity ≤ r.output.capacity) :
    True ∧ True ∧
    (writeSlice r.buffer 0
      (List.take (((data.length : ℤ) - (r.unass_base - index : ℕ)) ⊓
        (r.output.available_capacity : ℤ)).toNat
        (List.drop (r.unass_base - index) data))).length = r.window_size ∧
    (writeSlice r.bitmap 0
      (List.replicate (((data.length : ℤ) - (r.unass_base - index : ℕ)) ⊓
        (r.output.available_capacity : ℤ)).toNat true)).length = r.window_size ∧
    (∀ i, i < (writeSlice r.bitmap 0
        (List.replicate (((data.length : ℤ) - (r.unass_base - index : ℕ)) ⊓
          (r.output.available_capacity : ℤ)).toNat true)).length →
      (writeSlice r.bitmap 0
        (List.replicate (((data.length : ℤ) - (r.unass_base - index : ℕ)) ⊓
          (r.output.available_capacity : ℤ)).toNat true)).getD i false = true →
      i < r.output.available_capacity) := by
  refine ⟨trivial, trivial, ?_, ?_, ?_⟩
  · rw [writeSlice_length _ _ _ (by simp [List.length_take, List.length_drop]; omega)]
    exact hlen
  · rw [writeSlice_length _ _ _ (by simp [List.length_replicate]; omega)]
    exact hblen
  · intro i hi htrue
    rw [writeSlice_length _ _ _ (by simp [List.length_replicate]; omega)] at hi
    rcases writeSlice_getD_cases r.bitmap
        (List.replicate (((data.length : ℤ) - (r.unass_base - index : ℕ)) ⊓
          (r.output.available_capacity : ℤ)).toNat true)
        0 i false (by simp [List.length_replicate]; omega)
      with hcase | hcase
    · rw [hcase] at htrue
      exact hpos i hi htrue
    · simp only [List.length_replicate] at hcase
      omega

lemma insertStore_spec (r : Reassembler) (index : ℕ) (data : List ℕ) (eofFlag : Bool)
    (hwcap : r.window_size = r.output.capacity)
    (hlen : r.buffer.length = r.window_size)
    (hblen : r.bitmap.length = r.window_size)
    (hpos : ∀ i, i < r.bitmap.length → r.bitmap.getD i false = true →
      i < r.output.available_capacity) :
    (Reassembler.insertStore r index data eofFlag).output = r.output ∧
    (Reassembler.insertStore r index data eofFlag).window_size = r.window_size ∧
    (Reassembler.insertStore r index data eofFlag).buffer.length = r.window_size ∧
    (Reassembler.insertStore r index data eofFlag).bitmap.length = r.window_size ∧
    (∀ i, i < (Reassembler.insertStore r index data eofFlag).bitmap.length →
      (Reassembler.insertStore r index data eofFlag).bitmap.getD i false = true →
      i < r.output.available_capacity) := by
  have havail : r.output.available_capacity ≤ r.output.capacity := Nat.sub_le _ _
  unfold Reassembler.insertStore
  simp only []
  split_ifs with h1 h2 h3 h4 h5 h6
  all_goals
    simp only [Reassembler.extendBuffers, hlen, Nat.sub_self, List.replicate_zero,
      List.append_nil]
  -- goals in order: branch 1 with a write (EOF set / not set), branch 1
  -- without a write (twice), branch 2 (twice), segment before the window
  · exact insertStore_write1 r index data hwcap hlen hblen hpos havail h2
  · exact insertStore_write1 r index data hwcap hlen hblen hpos havail h2
  · exact ⟨trivial, trivial, trivial, hblen, hpos⟩
  · exact ⟨trivial, trivial, trivial, hblen, hpos⟩
  · exact insertStore_write2 r index data hwcap hlen hblen hpos havail
  · exact insertStore_write2 r index data hwcap hlen hblen hpos havail
  · exact ⟨trivial, trivial, trivial, hblen, hpos⟩


/-- C10 (amended): from every invariant-satisfying (reachable)
reassembler state, `insert` never trips the over-capacity branch of
`ByteStream.push` — the contiguous-prefix drain writes at most
`available_capacity` bytes — and it preserves the invariant; the
closed-stream branch of `ByteStream.push`, however, IS reachable (see
the counterexample): once the pending EOF has closed the output, a later
overlapping `insert` pushes to the closed stream and raises. -/
theorem insert_no_capacity_overflow (r : Reassembler) (index : ℕ) (data : List ℕ)
    (eofFlag : Bool) (hInv : r.Inv) :
    (∀ e, r.insert index data eofFlag = .error e → e = "Stream is closed") ∧
    (∀ r2, r.insert index data eofFlag = .ok r2 → r2.Inv) := by
  obtain ⟨hwcap, hlen, hblen, hbuf, hlead, hpos, heofc⟩ := hInv
  obtain ⟨hso, hsw, hsbl, hsml, hspos⟩ :=
    insertStore_spec r index data eofFlag hwcap hlen hblen hpos
  set r1 := Reassembler.insertStore r index data eofFlag with hr1
  obtain ⟨hcerr, hcok⟩ := check_contiguous_spec r1
    (by rw [hsw, hso]; exact hwcap)
    (by rw [hsbl, hsw])
    (by rw [hsml, hsw])
    (by rw [hso]; exact hbuf)
    (by intro i hi ht; rw [hso]; exact hspos i hi ht)
  unfold Reassembler.insert
  rw [← hr1]
  split_ifs with hearly
  · refine ⟨fun e he => absurd he (by simp), fun r2 h2 => ?_⟩
    simp only [Except.ok.injEq] at h2
    subst h2
    exact ⟨hwcap, hlen, hblen, hbuf, hlead, hpos, heofc⟩
  · cases hcc : Reassembler.check_contiguous r1 with
    | error e =>
      refine ⟨fun e2 he2 => ?_, fun r2 h2 => ?_⟩
      · simp only [Except.error.injEq] at he2
        rw [← he2]
        exact hcerr e hcc
      · simp at h2
    | ok r2x =>
      obtain ⟨q1, q2, q3, q4, q5, q6, q7, q8, q9⟩ := hcok r2x hcc
      have hcap2 : r2x.window_size = r2x.output.capacity := by
        rw [q1, hsw, q3, hso, hwcap]
      refine ⟨fun e he => ?_, fun r2 h2 => ?_⟩
      · simp only [] at he
        split_ifs at he
      · simp only [] at h2
        split_ifs at h2 with hclose
        · simp only [Except.ok.injEq] at h2
          subst h2
          refine ⟨?_, q5, q6, ?_, q8, ?_, ?_⟩
          · simpa [ByteStream.close] using hcap2
          · simpa [ByteStream.close] using q7
          · intro i hi ht
            simp only [ByteStream.close] at hi ht ⊢
            exact q9 i hi ht
          · intro _ _
            rfl
        · simp only [Except.ok.injEq] at h2
          subst h2
          refine ⟨hcap2, q5, q6, q7, q8, q9, ?_⟩
          intro heof hsize
          exfalso
          apply hclose
          rw [heof]
          simp [Reassembler.unass_size] at hsize ⊢
          exact hsize

/-- C10 (counterexample): the closed-stream failure branch of
`ByteStream.push` IS reachable from `Reassembler.insert`: on a
capacity-2 reassembler, `insert(0, b"a", False)` drains one byte;
`insert(2, b"", True)` (empty data at exactly the window edge) sets the
pending EOF and closes the output; `insert(1, b"b", False)` then stores
a byte and the drain pushes to the closed stream, raising
`ValueError("Stream is closed")`. -/
theorem insert_closed_push_claim_refuted :
    (((Reassembler.init (ByteStream.init 2)).insert 0 [97] false).bind
      (fun r => r.insert 2 [] true)).map (fun r => r.output.closed) = .ok true ∧
    ((((Reassembler.init (ByteStream.init 2)).insert 0 [97] false).bind
      (fun r => r.insert 2 [] true)).bind
      (fun r => r.insert 1 [98] false)) = .error "Stream is closed" :=
  ⟨rfl, rfl⟩

/-- C10 (witness): `insert_no_capacity_overflow` applied to a fresh
capacity-2 reassembler and `insert(0, b"a", False)`. -/
theorem insert_no_capacity_overflow_witness :
    (Reassembler.init (ByteStream.init 2)).Inv ∧
    ((∀ e, (Reassembler.init (ByteStream.init 2)).insert 0 [97] false = .error e →
        e = "Stream is closed") ∧
     (∀ r2, (Reassembler.init (ByteStream.init 2)).insert 0 [97] false = .ok r2 →
        r2.Inv)) := by
  have hI : (Reassembler.init (ByteStream.init 2)).Inv :=
    ⟨rfl, rfl, rfl, by decide, rfl, by decide, by decide⟩
  exact ⟨hI, insert_no_capacity_overflow _ 0 [97] false hI⟩

/-- C6 (amended): for every reachable reassembler state, an
`insert(first_index, data, is_last)` with `first_index ≥ U + W` —
`U` the first unassembled index, `W` the output stream available
capacity — and not (`is_last` with empty data at exactly `U + W`)
changes nothing at all: the state (bytes stored, output stream, pending
EOF flag) is returned unchanged.  In the excluded corner case
(`is_last`, empty data, `first_index = U + W` exactly) the source DOES
remember the EOF flag (see the counterexample). -/
theorem insert_beyond_window_drops (r : Reassembler) (index : ℕ) (data : List ℕ)
    (eofFlag : Bool) (hInv : r.Inv)
    (hbeyond : r.unass_base + r.output.available_capacity ≤ index)
    (hexcl : ¬(data = [] ∧ eofFlag = true ∧
      index = r.unass_base + r.output.available_capacity)) :
    r.insert index data eofFlag = .ok r := by
  obtain ⟨hwcap, hlen, hblen, hbuf, hlead, hpos, heofc⟩ := hInv
  have havail : r.output.available_capacity ≤ r.output.capacity := Nat.sub_le _ _
  have hstore : Reassembler.insertStore r index data eofFlag = r := by
    unfold Reassembler.insertStore
    rw [if_pos (show r.unass_base ≤ index by omega)]
    simp only []
    have hcond1 : ¬((data.length : ℤ) ≤
        (data.length : ℤ) ⊓ ((r.output.available_capacity : ℤ) -
          ((index - r.unass_base : ℕ) : ℤ)) ∧ eofFlag = true) := by
      rintro ⟨ha, hb⟩
      exact hexcl ⟨List.length_eq_zero.mp (by omega), hb, by omega⟩
    have hcond2 : ¬((0 : ℤ) <
        (data.length : ℤ) ⊓ ((r.output.available_capacity : ℤ) -
          ((index - r.unass_base : ℕ) : ℤ))) := by omega
    rw [if_neg hcond1, extendBuffers_eq r hlen, if_neg hcond2]
  unfold Reassembler.insert
  rw [hstore]
  split_ifs with hearly
  · rfl
  · have hcc : Reassembler.check_contiguous r = .ok r := by
      unfold Reassembler.check_contiguous
      rw [hlead]
      simp
    rw [hcc]
    simp only []
    cases hef : (r.eof && (r.unass_size == 0)) with
    | false => rfl
    | true =>
      simp only [Bool.and_eq_true, beq_iff_eq] at hef
      have hclosed : r.output.closed = true := heofc hef.1 hef.2
      rw [close_eq_self _ hclosed]
      rfl

/-- C6 (counterexample): on a capacity-2 reassembler that has assembled
one byte (`U = 1`, `W = available_capacity = 1`),
`insert(2, b"", True)` has `first_index = 2 ≥ U + W = 2`, yet it sets
the pending-EOF flag and closes the output stream, because
`real_len = min(0, W - offset) = 0 ≥ len(data)` makes the source treat
the empty out-of-window segment as fully stored. -/
theorem insert_beyond_window_claim_refuted :
    ((Reassembler.init (ByteStream.init 2)).insert 0 [97] false).map
      (fun r => (r.unass_base, r.output.available_capacity, r.eof, r.output.closed))
      = .ok (1, 1, false, false) ∧
    (((Reassembler.init (ByteStream.init 2)).insert 0 [97] false).bind
      (fun r => r.insert 2 [] true)).map (fun r => (r.eof, r.output.closed))
      = .ok (true, true) :=
  ⟨rfl, rfl⟩

/-- C6 (witness): `insert_beyond_window_drops` applied to a fresh
capacity-2 reassembler and `insert(5, b"x", True)`. -/
theorem insert_beyond_window_drops_witness :
    (Reassembler.init (ByteStream.init 2)).Inv ∧
    (0 : ℕ) + (Reassembler.init (ByteStream.init 2)).output.available_capacity ≤ 5 ∧
    ¬(([120] : List ℕ) = [] ∧ true = true ∧
      (5 : ℕ) = 0 + (Reassembler.init (ByteStream.init 2)).output.available_capacity) ∧
    (Reassembler.init (ByteStream.init 2)).insert 5 [120] true =
      .ok (Reassembler.init (ByteStream.init 2)) := by
  have hI : (Reassembler.init (ByteStream.init 2)).Inv :=
    ⟨rfl, rfl, rfl, by decide, rfl, by decide, by decide⟩
  refine ⟨hI, by decide, by decide, ?_⟩
  exact insert_beyond_window_drops _ 5 [120] true hI (by decide) (by decide)

end MiniTcp
